import Mathlib

/-!
Verification of the filtering, ordering and pattern-matching engine of
`vrlist.py` (a voter-registration roster generator), together with its
interactive street-selection loop.

Python functions are shallowly embedded as Lean definitions. Python strings
are `String` (compared code point by code point, as Python does); raising
`ValueError`/`re.error` is modelled by returning `none`; console input is
modelled by a script of input lines, and console output relevant to the
behavioural contract by a list of emitted events. The voter file holds ASCII
text, so `str.isdigit` and `int` are modelled on ASCII digits.
-/

namespace VRList

/-! ### Three-way comparators modelling Python value comparison -/

/-- Comparison of natural numbers. -/
def cmpNat (a b : Nat) : Ordering :=
  if a < b then .lt else if a = b then .eq else .gt

/-- Comparison of integers, modelling Python integer comparison. -/
def cmpInt (a b : Int) : Ordering :=
  if a < b then .lt else if a = b then .eq else .gt

/-- Python compares characters of a string by code point. -/
def cmpChar (a b : Char) : Ordering := cmpNat a.toNat b.toNat

/-- Lexicographic comparison of lists: elements first, a strict prefix is
smaller. This is how Python compares two strings or two tuples. -/
def cmpList (c : α → α → Ordering) : List α → List α → Ordering
  | [], [] => .eq
  | [], _ :: _ => .lt
  | _ :: _, [] => .gt
  | a :: as, b :: bs => (c a b).then (cmpList c as bs)

/-- Python string comparison (code-point lexicographic). -/
def cmpStr (a b : String) : Ordering := cmpList cmpChar a.data b.data

/-- Lexicographic comparison of a pair. -/
def cmpProd (ca : α → α → Ordering) (cb : β → β → Ordering) (x y : α × β) : Ordering :=
  (ca x.1 y.1).then (cb x.2 y.2)

/-- A comparator is lawful when `.eq` characterises equality, swapping the
arguments swaps the verdict, and `.lt` is transitive. -/
def LawfulCmp (c : α → α → Ordering) : Prop :=
  (∀ a b, c a b = .eq ↔ a = b) ∧ (∀ a b, c b a = (c a b).swap) ∧
    (∀ a b d, c a b = .lt → c b d = .lt → c a d = .lt)

theorem cmpNat_lawful : LawfulCmp cmpNat := by
  refine ⟨fun a b => ?_, fun a b => ?_, fun a b d h1 h2 => ?_⟩
  · unfold cmpNat
    by_cases h : a < b
    · simp only [if_pos h]; constructor
      · intro hc; cases hc
      · intro hc; omega
    · by_cases h2 : a = b <;> simp [h, h2]
  · unfold cmpNat
    rcases Nat.lt_trichotomy a b with h | h | h
    · rw [if_neg (by omega), if_neg (by omega), if_pos h]; rfl
    · rw [if_neg (by omega), if_pos (by omega), if_neg (by omega), if_pos h]; rfl
    · rw [if_pos h, if_neg (by omega), if_neg (by omega)]; rfl
  · unfold cmpNat at *
    have ha : a < b := by
      by_cases h : a < b
      · exact h
      · by_cases h2 : a = b <;> simp [h, h2] at h1
    have hb : b < d := by
      by_cases h : b < d
      · exact h
      · by_cases h2 : b = d <;> simp [h, h2] at h2 h1 h2 <;> simp [h, h2] at *
    rw [if_pos (by omega)]

theorem cmpInt_lawful : LawfulCmp cmpInt := by
  refine ⟨fun a b => ?_, fun a b => ?_, fun a b d h1 h2 => ?_⟩
  · unfold cmpInt
    by_cases h : a < b
    · simp only [if_pos h]; constructor
      · intro hc; cases hc
      · intro hc; omega
    · by_cases h2 : a = b <;> simp [h, h2]
  · unfold cmpInt
    rcases Int.lt_trichotomy a b with h | h | h
    · rw [if_neg (by omega), if_neg (by omega), if_pos h]; rfl
    · rw [if_neg (by omega), if_pos (by omega), if_neg (by omega), if_pos h]; rfl
    · rw [if_pos h, if_neg (by omega), if_neg (by omega)]; rfl
  · unfold cmpInt at *
    have ha : a < b := by
      by_cases h : a < b
      · exact h
      · by_cases h2 : a = b <;> simp [h, h2] at h1
    have hb : b < d := by
      by_cases h : b < d
      · exact h
      · by_cases h2 : b = d <;> simp [h, h2] at h2 h1 h2 <;> simp [h, h2] at *
    rw [if_pos (by omega)]

theorem char_toNat_inj {a b : Char} (h : a.toNat = b.toNat) : a = b :=
  Char.eq_of_val_eq (UInt32.toNat.inj h)

theorem cmpChar_lawful : LawfulCmp cmpChar := by
  refine ⟨fun a b => ?_, fun a b => cmpNat_lawful.2.1 _ _,
    fun a b d h1 h2 => cmpNat_lawful.2.2 _ _ _ h1 h2⟩
  unfold cmpChar
  rw [cmpNat_lawful.1]
  exact ⟨char_toNat_inj, fun h => by rw [h]⟩

theorem cmpList_lawful (c : α → α → Ordering) (hc : LawfulCmp c) :
    LawfulCmp (cmpList c) := by
  obtain ⟨heq, hswap, htrans⟩ := hc
  refine ⟨?_, ?_, ?_⟩
  · intro a b
    induction a generalizing b with
    | nil => cases b <;> simp [cmpList]
    | cons x xs ih =>
      cases b with
      | nil => simp [cmpList]
      | cons y ys =>
        simp [cmpList, Ordering.then_eq_eq, heq, ih]
  · intro a b
    induction a generalizing b with
    | nil => cases b <;> rfl
    | cons x xs ih =>
      cases b with
      | nil => rfl
      | cons y ys => simp [cmpList, Ordering.swap_then, hswap x y, ih]
  · intro a b d h1 h2
    induction a generalizing b d with
    | nil =>
      cases b with
      | nil => simpa using h2
      | cons y ys => cases d <;> simp [cmpList] at h2 ⊢
    | cons x xs ih =>
      cases b with
      | nil => simp [cmpList] at h1
      | cons y ys =>
        cases d with
        | nil => simp [cmpList] at h2
        | cons z zs =>
          simp only [cmpList, Ordering.then_eq_lt] at h1 h2 ⊢
          rcases h1 with h1 | ⟨h1e, h1r⟩
          · rcases h2 with h2 | ⟨h2e, h2r⟩
            · exact Or.inl (htrans _ _ _ h1 h2)
            · rw [heq] at h2e; subst h2e; exact Or.inl h1
          · rw [heq] at h1e; subst h1e
            rcases h2 with h2 | ⟨h2e, h2r⟩
            · exact Or.inl h2
            · rw [heq] at h2e; subst h2e
              exact Or.inr ⟨(heq _ _).mpr rfl, ih _ _ h1r h2r⟩

theorem cmpStr_lawful : LawfulCmp cmpStr := by
  have h := cmpList_lawful cmpChar cmpChar_lawful
  refine ⟨fun a b => ?_, fun a b => h.2.1 _ _, fun a b d h1 h2 => h.2.2 _ _ _ h1 h2⟩
  unfold cmpStr
  rw [h.1]
  exact ⟨fun hd => String.ext hd, fun hd => by rw [hd]⟩

theorem cmpProd_lawful (ca : α → α → Ordering) (cb : β → β → Ordering)
    (ha : LawfulCmp ca) (hb : LawfulCmp cb) : LawfulCmp (cmpProd ca cb) := by
  refine ⟨fun x y => ?_, fun x y => ?_, fun x y z h1 h2 => ?_⟩
  · simp only [cmpProd, Ordering.then_eq_eq, ha.1, hb.1]
    constructor
    · rintro ⟨h1, h2⟩; exact Prod.ext h1 h2
    · rintro rfl; exact ⟨rfl, rfl⟩
  · simp [cmpProd, Ordering.swap_then, ha.2.1 x.1 y.1, hb.2.1 x.2 y.2]
  · simp only [cmpProd, Ordering.then_eq_lt] at h1 h2 ⊢
    rcases h1 with h1 | ⟨h1e, h1r⟩
    · rcases h2 with h2 | ⟨h2e, h2r⟩
      · exact Or.inl (ha.2.2 _ _ _ h1 h2)
      · rw [ha.1] at h2e; rw [← h2e]; exact Or.inl h1
    · rw [ha.1] at h1e
      rcases h2 with h2 | ⟨h2e, h2r⟩
      · rw [h1e]; exact Or.inl h2
      · rw [ha.1] at h2e
        refine Or.inr ⟨?_, hb.2.2 _ _ _ h1r h2r⟩
        rw [h1e, h2e]
        exact (ha.1 _ _).mpr rfl

/-- Boolean "less or equal" induced by a comparator, as used to drive a
stable merge sort the way Python `list.sort` sorts by a key. -/
def cmpLeB (c : α → α → Ordering) (a b : α) : Bool :=
  match c a b with
  | .gt => false
  | _ => true

theorem cmpLeB_total (c : α → α → Ordering) (hc : LawfulCmp c) (a b : α) :
    (cmpLeB c a b || cmpLeB c b a) = true := by
  unfold cmpLeB
  rw [hc.2.1 a b]
  cases c a b <;> rfl

theorem cmpLeB_trans (c : α → α → Ordering) (hc : LawfulCmp c) (a b d : α)
    (h1 : cmpLeB c a b = true) (h2 : cmpLeB c b d = true) : cmpLeB c a d = true := by
  unfold cmpLeB at *
  cases hab : c a b with
  | gt => rw [hab] at h1; cases h1
  | eq => rw [hc.1] at hab; subst hab; exact h2
  | lt =>
    cases hbd : c b d with
    | gt => rw [hbd] at h2; cases h2
    | eq => rw [hc.1] at hbd; subst hbd; rw [hab]
    | lt => rw [hc.2.2 _ _ _ hab hbd]

/-! ### Python `str.isdigit` and `int`, on ASCII data -/

/-- Python `str.isdigit`: true when the string is nonempty and every
character is a digit. -/
def pyIsdigit (cs : List Char) : Bool := !cs.isEmpty && cs.all (·.isDigit)

/-- Base-ten value of a digit run, as `int` computes it for digit strings. -/
def digitsVal (cs : List Char) : Nat :=
  cs.foldl (fun acc c => 10 * acc + (c.toNat - 48)) 0

/-- Leading and trailing whitespace is ignored by Python `int`. -/
def pyStrip (cs : List Char) : List Char :=
  ((cs.dropWhile (·.isWhitespace)).reverse.dropWhile (·.isWhitespace)).reverse

/-- Python `int(text)`: an optional sign followed by a nonempty digit run
(after stripping surrounding whitespace); anything else raises `ValueError`,
modelled as `none`. -/
def pyIntCore : List Char → Option Int
  | '+' :: rest => if pyIsdigit rest then some ((digitsVal rest : Nat) : Int) else none
  | '-' :: rest => if pyIsdigit rest then some (-((digitsVal rest : Nat) : Int)) else none
  | cs => if pyIsdigit cs then some ((digitsVal cs : Nat) : Int) else none

/-- Python `int` applied to one line of input. -/
def pyInt (s : String) : Option Int := pyIntCore (pyStrip s.data)

/-! ### Pseudonumeric ordering: `make_pseudonumber_sortable` -/

/-- Number of steps an index-advancing `while` loop makes from the front of
the remaining characters while the test holds. -/
def scanCount (p : Char → Bool) : List Char → Nat
  | [] => 0
  | c :: cs => if p c then 1 + scanCount p cs else 0

/-- Embedding of `make_pseudonumber_sortable` (vrlist.py lines 116 to 144).
The Python tuple `(number,)`, `(0, text)` or `(number, prefix, suffix)` is
represented as the integer first component paired with the list of string
components that follow it. -/
def make_pseudonumber_sortable (s : String) : Int × List String :=
  let cs := s.data
  if pyIsdigit cs then ((digitsVal cs : Nat), [])
  else if cs.isEmpty then (0, [])
  else
    let numIdx := scanCount (fun c => !c.isDigit) cs
    if numIdx = cs.length then (0, [s])
    else
      let sufIdx := numIdx + scanCount (fun c => c.isDigit) (cs.drop numIdx)
      ((digitsVal ((cs.drop numIdx).take (sufIdx - numIdx)) : Nat),
        [String.mk (cs.take numIdx), String.mk (cs.drop sufIdx)])

theorem scanCount_eq_length_takeWhile (p : Char → Bool) (l : List Char) :
    scanCount p l = (l.takeWhile p).length := by
  induction l with
  | nil => rfl
  | cons c cs ih =>
    by_cases h : p c <;> simp [scanCount, List.takeWhile_cons, h, ih, Nat.add_comm]

theorem take_length_takeWhile (p : Char → Bool) (l : List Char) :
    l.take (l.takeWhile p).length = l.takeWhile p := by
  induction l with
  | nil => rfl
  | cons c cs ih =>
    by_cases h : p c <;> simp [List.takeWhile_cons, h, ih]

theorem drop_length_takeWhile (p : Char → Bool) (l : List Char) :
    l.drop (l.takeWhile p).length = l.dropWhile p := by
  induction l with
  | nil => rfl
  | cons c cs ih =>
    by_cases h : p c <;> simp [List.takeWhile_cons, List.dropWhile_cons, h, ih]

/-! ### Pattern specification parser: `parse_ranges` and `validate_pattern` -/

/-- Python `text.split(sep)` for a one-character separator: empty pieces are
kept, and the empty string splits into one empty piece. -/
def splitOn (sep : Char) : List Char → List (List Char)
  | [] => [[]]
  | c :: cs =>
    if c = sep then [] :: splitOn sep cs
    else
      match splitOn sep cs with
      | [] => [[c]]
      | h :: t => (c :: h) :: t

/-- Python `int` applied to one piece of a split string. -/
def strInt (cs : List Char) : Option Int := pyIntCore (pyStrip cs)

/-- Loop of `parse_ranges` (vrlist.py lines 153 to 162) over the comma
components, each already split on hyphens: one token yields a degenerate
pair, two tokens yield a pair, anything else raises. -/
def rangesLoop : List (List (List Char)) → Option (List (Int × Int))
  | [] => some []
  | rang :: rest =>
    match rang with
    | [a] => do
      let n ← strInt a
      let r ← rangesLoop rest
      pure ((n, n) :: r)
    | [a, b] => do
      let lo ← strInt a
      let hi ← strInt b
      let r ← rangesLoop rest
      pure ((lo, hi) :: r)
    | _ => none

/-- Embedding of `parse_ranges` (vrlist.py lines 151 to 162); a raised
`ValueError` is `none`. -/
def parse_ranges (s : String) : Option (List (Int × Int)) :=
  rangesLoop ((splitOn ',' s.data).map (splitOn '-'))

/-- One comma component as the specification words it: the component splits
on hyphens into one or two integer tokens, giving `(n, n)` or `(lo, hi)`. -/
def specComponent (comp : List Char) : Option (Int × Int) :=
  match splitOn '-' comp with
  | [a] => (strInt a).map fun n => (n, n)
  | [a, b] => do
    let lo ← strInt a
    let hi ← strInt b
    pure (lo, hi)
  | _ => none

theorem rangesLoop_eq_mapM (l : List (List Char)) :
    rangesLoop (l.map (splitOn '-')) = l.mapM specComponent := by
  induction l with
  | nil => rfl
  | cons a rest ih =>
    simp only [List.map_cons, List.mapM_cons]
    rcases h : splitOn '-' a with _ | ⟨x, t⟩
    · simp [rangesLoop, specComponent, h]
    · rcases t with _ | ⟨y, t2⟩
      · simp only [rangesLoop, specComponent, h, ← ih]
        cases strInt x <;> simp [Option.map, Option.bind]
      · rcases t2 with _ | ⟨z, t3⟩
        · simp only [rangesLoop, specComponent, h, ← ih]
          cases strInt x <;> cases strInt y <;> simp [Option.map, Option.bind]
        · simp [rangesLoop, specComponent, h]

/-- PatternSpec: `validate_pattern` either hands back a regular expression
source string or a list of inclusive integer ranges. -/
inductive PatSpec where
  | regex : String → PatSpec
  | ranges : List (Int × Int) → PatSpec
deriving DecidableEq

/-- Guard of the regex branch of `validate_pattern`: first and last
characters are forward slashes and the input is not the single slash. -/
def SlashWrapped (p : String) : Prop :=
  p.data.head? = some '/' ∧ p.data.getLast? = some '/' ∧ p ≠ "/"

instance (p : String) : Decidable (SlashWrapped p) := by
  unfold SlashWrapped; infer_instance

/-- Embedding of `validate_pattern` (vrlist.py lines 165 to 186). Whether a
candidate regular expression compiles under `re.compile` is outside this
model, so it is passed in as the oracle `compiles`; the theorems below
instantiate the oracle the way Python behaves on the inputs they evaluate
(`re.compile` succeeds on those interiors). -/
def validate_pattern (compiles : String → Bool) (pattern : String) : Option PatSpec :=
  if pattern = "" then some (.regex ".*")
  else if SlashWrapped pattern then
    let interior := String.mk (pattern.data.drop 1).dropLast
    if compiles interior then some (.regex interior) else none
  else
    match parse_ranges pattern with
    | some rs => some (.ranges rs)
    | none => none

theorem takeWhile_eq_self_of_all (p : Char → Bool) (l : List Char)
    (h : ∀ ch ∈ l, p ch = true) : l.takeWhile p = l := by
  induction l with
  | nil => rfl
  | cons c cs ih =>
    simp [List.takeWhile_cons, h c (List.mem_cons_self c cs),
      ih fun ch hm => h ch (List.mem_cons_of_mem c hm)]

theorem length_takeWhile_ne_of_any (p : Char → Bool) (l : List Char)
    (h : l.any p = true) : (l.takeWhile fun ch => !p ch).length ≠ l.length := by
  induction l with
  | nil => simp at h
  | cons c cs ih =>
    rw [List.takeWhile_cons]
    by_cases hc : p c
    · simp [hc]
    · simp only [List.any_cons, hc, Bool.false_or] at h
      simp [hc, ih h]

/-- C3: the pseudonumeric key of an all-digit string is the one-element
tuple of its integer value; of the empty string, `(0,)`; of a digit-free
nonempty string, `(0, s)`; otherwise `(n, prefix, suffix)` with `prefix`
the run of characters before the first digit, `n` the value of the maximal
digit run starting there and `suffix` everything after that run — in
particular the key of `"B12"` is `(12, "B", "")`. -/
theorem make_pseudonumber_spec :
    (∀ s : String, pyIsdigit s.data = true →
      make_pseudonumber_sortable s = ((digitsVal s.data : Int), [])) ∧
    (make_pseudonumber_sortable "" = (0, [])) ∧
    (∀ s : String, s ≠ "" → (∀ ch ∈ s.data, ch.isDigit = false) →
      make_pseudonumber_sortable s = (0, [s])) ∧
    (∀ s : String, s.data.any (·.isDigit) = true → pyIsdigit s.data = false →
      make_pseudonumber_sortable s =
        ((digitsVal ((s.data.dropWhile fun ch => !ch.isDigit).takeWhile (·.isDigit)) : Int),
          [String.mk (s.data.takeWhile fun ch => !ch.isDigit),
            String.mk ((s.data.dropWhile fun ch => !ch.isDigit).dropWhile (·.isDigit))])) ∧
    make_pseudonumber_sortable "B12" = (12, ["B", ""]) := by
  refine ⟨fun s h => ?_, by decide, fun s hne hall => ?_, fun s hany hnd => ?_, by decide⟩
  · simp [make_pseudonumber_sortable, h]
  · have hdata : s.data ≠ [] := fun e => hne (String.ext (by simp [e]))
    have hdig : pyIsdigit s.data = false := by
      unfold pyIsdigit
      cases hd : s.data with
      | nil => exact absurd hd hdata
      | cons c cs =>
        simp [List.all_cons, hall c (by rw [hd]; exact List.mem_cons_self c cs)]
    have htw : s.data.takeWhile (fun ch => !ch.isDigit) = s.data :=
      takeWhile_eq_self_of_all _ _ (fun ch hm => by simp [hall ch hm])
    simp [make_pseudonumber_sortable, hdig, List.isEmpty_iff, hdata,
      scanCount_eq_length_takeWhile, htw]
  · have hlen := length_takeWhile_ne_of_any (·.isDigit) s.data hany
    have hdata : s.data ≠ [] := by
      cases hd : s.data with
      | nil => rw [hd] at hany; simp at hany
      | cons c cs => exact List.cons_ne_nil c cs
    simp only [make_pseudonumber_sortable, hnd, Bool.false_eq_true, if_false,
      List.isEmpty_iff, hdata, scanCount_eq_length_takeWhile,
      drop_length_takeWhile, if_neg hlen]
    rw [Nat.add_sub_cancel_left, take_length_takeWhile, take_length_takeWhile,
      ← List.drop_drop, drop_length_takeWhile, drop_length_takeWhile]

/-- Witness: the all-digit clause of the pseudonumeric key contract,
evaluated at a concrete numeral with leading zeros. -/
theorem make_pseudonumber_spec_witness :
    make_pseudonumber_sortable "007" = ((digitsVal "007".data : Int), []) :=
  make_pseudonumber_spec.1 "007" (by decide)

/-- C5: `parse_ranges` splits on commas and each component on hyphens; a
one-token component gives a degenerate pair, a two-token component gives the
pair with no low-before-high check, and any other token count or a
non-integer token fails; `parse_ranges "3,5-7,10"` yields the three pairs,
`parse_ranges "x"` fails, and `parse_ranges "7-3"` is accepted reversed. -/
theorem parse_ranges_spec :
    (∀ s : String, parse_ranges s = (splitOn ',' s.data).mapM specComponent) ∧
    parse_ranges "3,5-7,10" = some [(3, 3), (5, 7), (10, 10)] ∧
    parse_ranges "x" = none ∧
    (parse_ranges "7-3" = some [(7, 3)] ∧ (3 : Int) < 7) :=
  ⟨fun _ => rangesLoop_eq_mapM _, by decide, by decide, by decide, by decide⟩

/-- C4 counterexample: the input of exactly two slashes IS sent to the regex
branch by `validate_pattern` — the guard only excludes the single slash, not
every input of length at most two — so `"//"` compiles as the empty-interior
regex and is returned, while the claim would have range parsing fail and
`null` come back. -/
theorem validate_pattern_doubleslash :
    validate_pattern (fun _ => true) "//" = some (PatSpec.regex "") ∧
    parse_ranges "//" = none := by decide

/-- C4 (amended): `validate_pattern` returns the match-everything regex
`.*` on empty input; on input whose first and last characters are slashes
and which is not the single slash — equivalently, of length at least two
with slashes at both ends — it returns the compiled interior on success and
`null` on compile failure; on any other input it returns the parsed ranges,
or `null` when range parsing fails. -/
theorem validate_pattern_spec :
    (∀ c, validate_pattern c "" = some (PatSpec.regex ".*")) ∧
    (∀ c p, SlashWrapped p →
      validate_pattern c p =
        (if c (String.mk (p.data.drop 1).dropLast) then
          some (PatSpec.regex (String.mk (p.data.drop 1).dropLast)) else none)) ∧
    (∀ c p, p ≠ "" → ¬ SlashWrapped p →
      validate_pattern c p = (parse_ranges p).map PatSpec.ranges) ∧
    (∀ p, SlashWrapped p ↔
      2 ≤ p.data.length ∧ p.data.head? = some '/' ∧ p.data.getLast? = some '/') := by
  refine ⟨fun c => rfl, fun c p h => ?_, fun c p h1 h2 => ?_, fun p => ?_⟩
  · have hne : p ≠ "" := by
      intro e
      rw [e] at h
      exact Option.noConfusion h.1
    rw [validate_pattern, if_neg hne, if_pos h]
  · rw [validate_pattern, if_neg h1, if_neg h2]
    cases parse_ranges p <;> rfl
  · constructor
    · rintro ⟨h1, h2, h3⟩
      refine ⟨?_, h1, h2⟩
      obtain ⟨data⟩ := p
      match data with
      | [] => exact Option.noConfusion h1
      | [c] =>
        exfalso
        apply h3
        simp only [List.head?] at h1
        have : c = '/' := Option.some.inj h1
        rw [this]
      | a :: b :: t => simp
    · rintro ⟨hl, h1, h2⟩
      refine ⟨h1, h2, ?_⟩
      intro e
      rw [e] at hl
      simp at hl

/-- Witness: `validate_pattern` routes the plain input `"3"` through
`parse_ranges`. -/
theorem validate_pattern_spec_witness :
    validate_pattern (fun _ => true) "3" = (parse_ranges "3").map PatSpec.ranges :=
  validate_pattern_spec.2.2.1 (fun _ => true) "3" (by decide) (by decide)

/-! ### Record screening: regex screen and pseudonumeric range screen -/

/-- Row after projection: a mapping from field name to string value. The
rows these screens receive always carry the screened field. -/
def Row : Type := String → String

/-- Regular expressions over characters — the fragment of Python `re` this
model needs. `fullmatch` below gives the whole-string match semantics of a
compiled pattern. -/
inductive Regex where
  | emp : Regex
  | eps : Regex
  | chr : Char → Regex
  | alt : Regex → Regex → Regex
  | cat : Regex → Regex → Regex
  | star : Regex → Regex

/-- Nullability: whether the expression matches the empty string. -/
def Regex.nullable : Regex → Bool
  | .emp => false
  | .eps => true
  | .chr _ => false
  | .alt r s => r.nullable || s.nullable
  | .cat r s => r.nullable && s.nullable
  | .star _ => true

/-- Brzozowski derivative of an expression by one character. -/
def Regex.deriv (c : Char) : Regex → Regex
  | .emp => .emp
  | .eps => .emp
  | .chr d => if c = d then .eps else .emp
  | .alt r s => .alt (r.deriv c) (s.deriv c)
  | .cat r s =>
    if r.nullable then .alt (.cat (r.deriv c) s) (s.deriv c) else .cat (r.deriv c) s
  | .star r => .cat (r.deriv c) (.star r)

/-- Match semantics of `pattern.fullmatch(text)`: the regex matches the
ENTIRE string, anchored at both ends. -/
def Regex.fullmatch (r : Regex) (s : List Char) : Bool :=
  (s.foldl (fun t c => t.deriv c) r).nullable

/-- Existence of a match of any (possibly proper) substring, the semantics
of `re.search`; defined only to contrast with `fullmatch`. -/
def Regex.searchmatch (r : Regex) (s : List Char) : Bool :=
  (List.range (s.length + 1)).any fun i =>
    (List.range (s.length - i + 1)).any fun n => r.fullmatch ((s.drop i).take n)

/-- Embedding of `screen_regex` (vrlist.py lines 52 to 59), taking the
already compiled pattern. -/
def screen_regex (src : List Row) (col : String) (prog : Regex) : List Row :=
  match src with
  | [] => []
  | row :: rest =>
    if prog.fullmatch (row col).data then row :: screen_regex rest col prog
    else screen_regex rest col prog

/-- Inner loop of `screen_pseudorange`: scan the ranges in order and stop at
the first whose inclusive bounds contain the value. -/
def rangesMatch (ranges : List (Int × Int)) (x : Int) : Bool :=
  match ranges with
  | [] => false
  | (lo, hi) :: rest => if lo ≤ x ∧ x ≤ hi then true else rangesMatch rest x

/-- Embedding of `screen_pseudorange` (vrlist.py lines 62 to 74): a row is
appended once (the `break`) when some range contains the first component of
the pseudonumeric key of its screened field. -/
def screen_pseudorange (src : List Row) (col : String) (ranges : List (Int × Int)) :
    List Row :=
  match src with
  | [] => []
  | row :: rest =>
    if rangesMatch ranges (make_pseudonumber_sortable (row col)).1 then
      row :: screen_pseudorange rest col ranges
    else screen_pseudorange rest col ranges

/-- Concrete row holding one address number, for the example rows of the
specification. -/
def voterRow (v : String) : Row := fun f => if f = "address_number" then v else ""

theorem rangesMatch_iff (ranges : List (Int × Int)) (x : Int) :
    rangesMatch ranges x = true ↔ ∃ p ∈ ranges, p.1 ≤ x ∧ x ≤ p.2 := by
  induction ranges with
  | nil => simp [rangesMatch]
  | cons p rest ih =>
    obtain ⟨lo, hi⟩ := p
    by_cases h : lo ≤ x ∧ x ≤ hi
    · simp only [rangesMatch, if_pos h]
      exact ⟨fun _ => ⟨(lo, hi), List.mem_cons_self _ _, h⟩, fun _ => by trivial⟩
    · simp only [rangesMatch, if_neg h, ih]
      constructor
      · rintro ⟨q, hq, hb⟩
        exact ⟨q, List.mem_cons_of_mem _ hq, hb⟩
      · rintro ⟨q, hq, hb⟩
        rcases List.mem_cons.mp hq with rfl | hq2
        · exact absurd hb h
        · exact ⟨q, hq2, hb⟩

/-- C7: the regex screen keeps exactly the rows whose ENTIRE field value
matches the compiled pattern (anchored at both ends), in input order; a
proper-substring match alone — such as the pattern for the single letter A
against the value AB — does not keep a row. -/
theorem screen_regex_spec :
    (∀ src col prog, screen_regex src col prog =
      src.filter fun row => prog.fullmatch (row col).data) ∧
    (∀ src col prog row, row ∈ screen_regex src col prog ↔
      row ∈ src ∧ prog.fullmatch (row col).data = true) ∧
    (∀ src col prog, (screen_regex src col prog).Sublist src) ∧
    ((Regex.chr 'A').searchmatch "AB".data = true ∧
      (Regex.chr 'A').fullmatch "AB".data = false ∧
      screen_regex [voterRow "AB"] "address_number" (Regex.chr 'A') = []) := by
  have hfilter : ∀ src col prog, screen_regex src col prog =
      src.filter fun row => prog.fullmatch (row col).data := by
    intro src col prog
    induction src with
    | nil => rfl
    | cons row rest ih => rw [screen_regex, List.filter_cons, ih]
  refine ⟨hfilter, fun src col prog row => ?_, fun src col prog => ?_, ?_, ?_, rfl⟩
  · rw [hfilter, List.mem_filter]
  · rw [hfilter]
    exact List.filter_sublist src
  · decide
  · decide

/-- Witness: a row whose field value is matched entirely is kept by the
regex screen. -/
theorem screen_regex_spec_witness :
    voterRow "12" ∈ screen_regex [voterRow "12"] "address_number"
      (Regex.cat (Regex.chr '1') (Regex.chr '2')) :=
  (screen_regex_spec.2.1 [voterRow "12"] "address_number"
      (Regex.cat (Regex.chr '1') (Regex.chr '2')) (voterRow "12")).mpr
    ⟨List.mem_singleton.mpr rfl, by decide⟩

/-- C6 counterexample: the pseudonumeric key of the value B12 has leading
integer 12, not 0, so with the range 10 to 50 the range screen KEEPS the
row, where the claim says it is excluded. -/
theorem screen_pseudorange_B12 :
    screen_pseudorange [voterRow "B12"] "address_number" [(10, 50)] = [voterRow "B12"] ∧
    (make_pseudonumber_sortable "B12").1 = 12 := by
  exact ⟨rfl, by decide⟩

/-- C6 (amended): the range screen keeps exactly those rows, in input order
and each at most once, whose pseudonumeric leading integer lies in at least
one inclusive range, short-circuiting on the first matching range; a range
with low above high matches nothing; on the example values 12, 12B, B12 and
100 with the range 10 to 50, the rows for 12, 12B AND B12 are kept (each
has leading integer 12) and only 100 is excluded. -/
theorem screen_pseudorange_spec :
    (∀ src col ranges, screen_pseudorange src col ranges =
      src.filter fun row => rangesMatch ranges (make_pseudonumber_sortable (row col)).1) ∧
    (∀ src col ranges row, row ∈ screen_pseudorange src col ranges ↔
      row ∈ src ∧ ∃ p ∈ ranges, p.1 ≤ (make_pseudonumber_sortable (row col)).1 ∧
        (make_pseudonumber_sortable (row col)).1 ≤ p.2) ∧
    (∀ src col ranges, (screen_pseudorange src col ranges).Sublist src) ∧
    (∀ lo hi x : Int, hi < lo → rangesMatch [(lo, hi)] x = false) ∧
    screen_pseudorange [voterRow "12", voterRow "12B", voterRow "B12", voterRow "100"]
      "address_number" [(10, 50)] = [voterRow "12", voterRow "12B", voterRow "B12"] := by
  have hfilter : ∀ src col ranges, screen_pseudorange src col ranges =
      src.filter fun row => rangesMatch ranges (make_pseudonumber_sortable (row col)).1 := by
    intro src col ranges
    induction src with
    | nil => rfl
    | cons row rest ih => rw [screen_pseudorange, List.filter_cons, ih]
  refine ⟨hfilter, fun src col ranges row => ?_, fun src col ranges => ?_,
    fun lo hi x h => ?_, rfl⟩
  · rw [hfilter, List.mem_filter, rangesMatch_iff]
  · rw [hfilter]
    exact List.filter_sublist src
  · simp only [rangesMatch]
    rw [if_neg (by omega)]

/-- Witness: a reversed range keeps nothing, evaluated at the range from
five down to three. -/
theorem screen_pseudorange_spec_witness : rangesMatch [(5, 3)] 4 = false :=
  screen_pseudorange_spec.2.2.2.1 5 3 4 (by decide)

/-! ### Interactive street selection: `select_streets` -/

/-- Street key as collected by the precinct screen: direction prefix, name,
type suffix. -/
abbrev StreetKey : Type := String × String × String

/-- Console events of the selection loop that the behavioural contract
cares about, one per print statement in the loop body. -/
inductive SelEvent where
  | recap : SelEvent
  | added : Nat → SelEvent
  | removed : Nat → SelEvent
  | alreadySelected : SelEvent
  | alreadyDeselected : SelEvent
  | noSuchStreet : SelEvent
  | notANumber : SelEvent
deriving DecidableEq

/-- Body of the loop for a non-empty input line (vrlist.py lines 214 to
237): parse it as an integer, toggle the chosen street, and report. The
just-checked flag is cleared right after a successful parse, so a failed
parse leaves it unchanged. Returns the selection flags, the just-checked
flag and the events printed. -/
def selStep (streets : List StreetKey) (res : List Bool) (jc : Bool) (query : String) :
    List Bool × Bool × List SelEvent :=
  match pyInt query with
  | none => (res, jc, [.notANumber])
  | some qr =>
    if qr = 0 ∨ streets.length < qr.natAbs then (res, false, [.noSuchStreet])
    else if qr < 0 then
      if res.getD (qr.natAbs - 1) false then
        (res.set (qr.natAbs - 1) false, false, [.removed qr.natAbs])
      else (res, false, [.alreadyDeselected])
    else
      if res.getD (qr.natAbs - 1) false then (res, false, [.alreadySelected])
      else (res.set (qr.natAbs - 1) true, false, [.added qr.natAbs])

/-- The input loop of `select_streets` (vrlist.py lines 201 to 239) driven
by a script of input lines: reading an empty line while the just-checked
flag is set ends the loop; an empty line otherwise prints a recap and sets
the flag; any other line runs the body. `none` means the script ran out
while the loop still wanted input. -/
def selRun (streets : List StreetKey) (res : List Bool) (jc : Bool) :
    List String → Option (List Bool × List SelEvent)
  | [] => none
  | query :: rest =>
    if query = "" ∧ jc then some (res, [])
    else if query = "" then
      match selRun streets res true rest with
      | none => none
      | some (r, evs) => some (r, .recap :: evs)
    else
      match selStep streets res jc query with
      | (res2, jc2, evs) =>
        match selRun streets res2 jc2 rest with
        | none => none
        | some (r, evs2) => some (r, evs ++ evs2)

/-- List comprehension at vrlist.py line 243: the streets whose parallel
selection flag is set, in candidate order. -/
def pickSelected (res : List Bool) (streets : List StreetKey) : List StreetKey :=
  ((res.zip streets).filter fun pair => pair.1).map fun pair => pair.2

/-- Embedding of `select_streets` (vrlist.py lines 189 to 246) run against
a script of input lines: the returned street list and the events printed by
the loop body. -/
def select_streets (streets : List StreetKey) (script : List String) :
    Option (List StreetKey × List SelEvent) :=
  match selRun streets (List.replicate streets.length false) true script with
  | none => none
  | some (res, evs) => some (pickSelected res streets, evs)

/-- Evolution of the just-checked flag under one input line: an empty line
sets it (recap), a line that parses as an integer clears it, and any other
line leaves it unchanged. -/
def flagAfter (jc : Bool) (query : String) : Bool :=
  if query = "" then true else if (pyInt query).isSome then false else jc

/-- The just-checked flag after a sequence of input lines. -/
def foldFlag (jc : Bool) (qs : List String) : Bool := qs.foldl flagAfter jc

theorem selStep_flag (streets : List StreetKey) (res : List Bool) (jc : Bool)
    (query : String) :
    (selStep streets res jc query).2.1 = if (pyInt query).isSome then false else jc := by
  unfold selStep
  cases pyInt query with
  | none => rfl
  | some qr =>
    simp only [Option.isSome_some, if_true]
    split
    · rfl
    · split
      · split <;> rfl
      · split <;> rfl

theorem exists_stop_cons (q : String) (rest : List String) (jc : Bool) :
    (∃ k, k < (q :: rest).length ∧ (q :: rest)[k]? = some "" ∧
        foldFlag jc ((q :: rest).take k) = true) ↔
      ((q = "" ∧ jc = true) ∨
        ∃ j, j < rest.length ∧ rest[j]? = some "" ∧
          foldFlag (flagAfter jc q) (rest.take j) = true) := by
  constructor
  · rintro ⟨k, hk, hget, hflag⟩
    cases k with
    | zero =>
      left
      simp only [List.getElem?_cons_zero, Option.some.injEq] at hget
      simp only [List.take_zero, foldFlag, List.foldl_nil] at hflag
      exact ⟨hget, hflag⟩
    | succ j =>
      right
      refine ⟨j, by simpa using hk, by simpa using hget, ?_⟩
      simpa only [List.take_succ_cons, foldFlag, List.foldl_cons] using hflag
  · rintro (⟨hq, hjc⟩ | ⟨j, hj, hget, hflag⟩)
    · exact ⟨0, by simp, by simp [hq], by simpa [foldFlag] using hjc⟩
    · refine ⟨j + 1, by simpa using hj, by simpa using hget, ?_⟩
      simpa only [List.take_succ_cons, foldFlag, List.foldl_cons] using hflag

theorem isSome_map (o : Option α) (f : α → β) : (o.map f).isSome = o.isSome := by
  cases o <;> rfl

theorem selRun_empty_flag_set (streets : List StreetKey) (res : List Bool)
    (rest : List String) : selRun streets res true ("" :: rest) = some (res, []) := by
  simp only [selRun]
  rw [if_pos ⟨trivial, trivial⟩]

theorem selRun_empty_flag_clear (streets : List StreetKey) (res : List Bool)
    (rest : List String) :
    selRun streets res false ("" :: rest) =
      (selRun streets res true rest).map fun p => (p.1, SelEvent.recap :: p.2) := by
  simp only [selRun]
  rw [if_neg (by simp), if_pos trivial]
  cases selRun streets res true rest with
  | none => rfl
  | some p => cases p; rfl

theorem selRun_cons_nonempty (streets : List StreetKey) (res : List Bool) (jc : Bool)
    (q : String) (rest : List String) (hq : q ≠ "") :
    selRun streets res jc (q :: rest) =
      (selRun streets (selStep streets res jc q).1
          (selStep streets res jc q).2.1 rest).map
        fun p => (p.1, (selStep streets res jc q).2.2 ++ p.2) := by
  simp only [selRun]
  rw [if_neg (fun h => hq h.1), if_neg hq]
  rcases hstep : selStep streets res jc q with ⟨res2, jc2, evs⟩
  cases selRun streets res2 jc2 rest with
  | none => rfl
  | some p => cases p; rfl

theorem selRun_isSome_iff (streets : List StreetKey) (script : List String) :
    ∀ (res : List Bool) (jc : Bool),
      (selRun streets res jc script).isSome = true ↔
        ∃ k, k < script.length ∧ script[k]? = some "" ∧
          foldFlag jc (script.take k) = true := by
  induction script with
  | nil => intro res jc; simp [selRun]
  | cons q rest ih =>
    intro res jc
    rw [exists_stop_cons]
    by_cases hq : q = ""
    · subst hq
      cases jc with
      | true =>
        rw [selRun_empty_flag_set]
        simp
      | false =>
        rw [selRun_empty_flag_clear, isSome_map, ih res true]
        simp [flagAfter]
    · rw [selRun_cons_nonempty streets res jc q rest hq, isSome_map, ih, selStep_flag]
      have hfa : flagAfter jc q = if (pyInt q).isSome then false else jc := by
        rw [flagAfter, if_neg hq]
      rw [← hfa]
      simp [hq]

theorem pickSelected_sublist :
    ∀ (res : List Bool) (streets : List StreetKey),
      (pickSelected res streets).Sublist streets := by
  intro res streets
  induction streets generalizing res with
  | nil => simp [pickSelected]
  | cons s rest ih =>
    cases res with
    | nil => simp [pickSelected]
    | cons b bs =>
      by_cases hb : b = true
      · subst hb
        simpa [pickSelected, List.zip_cons_cons, List.filter_cons] using
          List.Sublist.cons₂ s (ih bs)
      · have hb2 : b = false := by cases b <;> simp_all
        subst hb2
        simpa [pickSelected, List.zip_cons_cons, List.filter_cons] using
          List.Sublist.cons s (ih bs)

theorem pickSelected_nil_of_all_false :
    ∀ (res : List Bool) (streets : List StreetKey),
      (∀ b ∈ res, b = false) → pickSelected res streets = [] := by
  intro res
  induction res with
  | nil => intro streets h; simp [pickSelected]
  | cons b bs ih =>
    intro streets h
    cases streets with
    | nil => simp [pickSelected]
    | cons s rest =>
      have hb : b = false := h b (List.mem_cons_self b bs)
      subst hb
      simpa [pickSelected, List.zip_cons_cons, List.filter_cons] using
        ih rest (fun x hx => h x (List.mem_cons_of_mem _ hx))

/-- Three example street candidates, playing the A, B, C of the
specification examples. -/
def exampleStreets : List StreetKey :=
  [("", "ELM", "ST"), ("", "OAK", "AVE"), ("N", "PINE", "DR")]

/-- C1 counterexample: on three candidates with the script 1, -1 and two
empty inputs, the toggles net out to zero selected — and `select_streets`
returns the EMPTY list, not the full candidate sequence. -/
theorem select_streets_none_selected :
    select_streets exampleStreets ["1", "-1", "", ""] =
      some ([], [SelEvent.added 1, SelEvent.removed 1, SelEvent.recap]) ∧
    ([] : List StreetKey) ≠ exampleStreets := by decide

/-- C1 (amended): whenever the loop terminates, `select_streets` returns
exactly the candidates whose selection flag is set, in original candidate
order (a sublist of the candidates); when zero candidates are selected at
termination the result is the EMPTY sequence — the whole-precinct default
is announced by the closing message and signalled by emptiness, not by
handing back the full candidate list. -/
theorem select_streets_result (streets : List StreetKey) (script : List String)
    (res : List Bool) (evs : List SelEvent)
    (h : selRun streets (List.replicate streets.length false) true script =
      some (res, evs)) :
    select_streets streets script = some (pickSelected res streets, evs) ∧
    (pickSelected res streets).Sublist streets ∧
    ((∀ b ∈ res, b = false) → pickSelected res streets = []) := by
  refine ⟨?_, pickSelected_sublist res streets, pickSelected_nil_of_all_false res streets⟩
  rw [select_streets, h]

/-- Witness: the amended C1 statement evaluated on the specification
example script, whose net selection is empty. -/
theorem select_streets_result_witness :
    select_streets exampleStreets ["1", "-1", "", ""] =
        some (pickSelected [false, false, false] exampleStreets,
          [SelEvent.added 1, SelEvent.removed 1, SelEvent.recap]) ∧
      (pickSelected [false, false, false] exampleStreets).Sublist exampleStreets ∧
      ((∀ b ∈ [false, false, false], b = false) →
        pickSelected [false, false, false] exampleStreets = []) :=
  select_streets_result exampleStreets ["1", "-1", "", ""] [false, false, false]
    [SelEvent.added 1, SelEvent.removed 1, SelEvent.recap] (by decide)

/-- C2 counterexample: after the non-numeric entry x — whose failed parse
leaves the initial just-checked flag set — the following empty input ENDS
the session without any recap, where the claim says an empty input whose
preceding action was not a recap prints a recap and continues. -/
theorem select_streets_invalid_then_empty :
    select_streets [("", "MAIN", "ST")] ["x", ""] =
      some ([], [SelEvent.notANumber]) := by decide

/-- C2 (amended): the loop terminates exactly when an empty input line is
read while the just-checked flag is set; the flag is set at session start
and by every empty-input recap, and cleared exactly by inputs that parse as
integers — an invalid non-numeric entry leaves it unchanged; an empty input
read while the flag is clear prints a recap, sets the flag and continues. -/
theorem select_streets_termination :
    (∀ (streets : List StreetKey) (script : List String) (res : List Bool) (jc : Bool),
      (selRun streets res jc script).isSome = true ↔
        ∃ k, k < script.length ∧ script[k]? = some "" ∧
          foldFlag jc (script.take k) = true) ∧
    (∀ (streets : List StreetKey) (res : List Bool) (rest : List String),
      selRun streets res true ("" :: rest) = some (res, [])) ∧
    (∀ (streets : List StreetKey) (res : List Bool) (rest : List String),
      selRun streets res false ("" :: rest) =
        (selRun streets res true rest).map fun p => (p.1, SelEvent.recap :: p.2)) ∧
    (∀ (streets : List StreetKey) (res : List Bool) (jc : Bool) (q : String)
        (rest : List String), q ≠ "" → pyInt q = none →
      selRun streets res jc (q :: rest) =
        (selRun streets res jc rest).map fun p => (p.1, SelEvent.notANumber :: p.2)) := by
  refine ⟨fun streets script res jc => selRun_isSome_iff streets script res jc,
    selRun_empty_flag_set, selRun_empty_flag_clear,
    fun streets res jc q rest hq hpy => ?_⟩
  rw [selRun_cons_nonempty streets res jc q rest hq]
  have hstep : selStep streets res jc q = (res, jc, [SelEvent.notANumber]) := by
    rw [selStep, hpy]
  rw [hstep]
  rfl

/-- Witness: the terminating scripts of the flag characterisation, at the
script consisting of the single non-numeric line x followed by a blank. -/
theorem select_streets_termination_witness :
    selRun [("", "MAIN", "ST")] [false] true ["x", ""] =
      (selRun [("", "MAIN", "ST")] [false] true [""]).map
        fun p => (p.1, SelEvent.notANumber :: p.2) :=
  select_streets_termination.2.2.2 [("", "MAIN", "ST")] [false] true "x" [""]
    (by decide) (by decide)

/-- C10: if the very first input line of the session is empty, the loop
ends at once — no recap is printed and no second empty input is needed —
and the empty selection is returned. -/
theorem select_streets_first_empty (streets : List StreetKey) (rest : List String)
    (h : streets ≠ []) :
    select_streets streets ("" :: rest) = some ([], []) := by
  rw [select_streets, selRun_empty_flag_set]
  show some (pickSelected (List.replicate streets.length false) streets, []) = some ([], [])
  rw [pickSelected_nil_of_all_false (List.replicate streets.length false) streets
    (fun b hb => List.eq_of_mem_replicate hb)]

/-- Witness: a one-candidate session whose only input is the initial blank
line ends immediately with nothing selected. -/
theorem select_streets_first_empty_witness :
    select_streets [("", "MAIN", "ST")] [""] = some ([], []) :=
  select_streets_first_empty [("", "MAIN", "ST")] [] (by decide)

/-! ### Roster ordering: `voter_sort_key` and the final sort -/

/-- Python runtime values a sort key is built from, with dynamic typing. -/
inductive PyVal where
  | int : Int → PyVal
  | str : String → PyVal
  | tup : List PyVal → PyVal

mutual
/-- Python comparison of two values: `none` models the `TypeError` raised
when the operands are an integer and a string. -/
def pyCompare : PyVal → PyVal → Option Ordering
  | .int a, .int b => some (cmpInt a b)
  | .str a, .str b => some (cmpStr a b)
  | .tup a, .tup b => pyCompareList a b
  | _, _ => none

/-- Python tuple comparison: element by element, a strict prefix first. -/
def pyCompareList : List PyVal → List PyVal → Option Ordering
  | [], [] => some .eq
  | [], _ :: _ => some .lt
  | _ :: _, [] => some .gt
  | a :: as, b :: bs =>
    match pyCompare a b with
    | none => none
    | some .eq => pyCompareList as bs
    | some o => some o
end

/-- Pseudonumeric key: the leading integer and the string components. -/
abbrev Pseudo : Type := Int × List String

/-- The Python tuple a pseudonumeric key denotes. -/
def pseudoToPy (p : Pseudo) : PyVal := .tup (.int p.1 :: p.2.map .str)

/-- Key type of `voter_sort_key`. -/
abbrev VoterKey : Type := String × String × String × Pseudo × Pseudo × String × String

/-- Embedding of `voter_sort_key` (vrlist.py lines 259 to 268). -/
def voter_sort_key (voter : Row) : VoterKey :=
  (voter "address_street_name",
    voter "address_street_suffix",
    voter "address_street_prefix",
    make_pseudonumber_sortable (voter "address_number"),
    make_pseudonumber_sortable (voter "address_unit"),
    voter "edr_date",
    voter "vuid")

/-- The sort key as the Python tuple the program hands to `list.sort`. -/
def voterKeyPy (voter : Row) : PyVal :=
  .tup [.str (voter "address_street_name"),
    .str (voter "address_street_suffix"),
    .str (voter "address_street_prefix"),
    pseudoToPy (make_pseudonumber_sortable (voter "address_number")),
    pseudoToPy (make_pseudonumber_sortable (voter "address_unit")),
    .str (voter "edr_date"),
    .str (voter "vuid")]

/-- Comparator on pseudonumeric keys: leading integer first, then the
string components lexicographically, exactly Python tuple comparison. -/
def cmpPseudo : Pseudo → Pseudo → Ordering := cmpProd cmpInt (cmpList cmpStr)

/-- Comparator on the seven-component sort key. -/
def cmpVoterKey : VoterKey → VoterKey → Ordering :=
  cmpProd cmpStr (cmpProd cmpStr (cmpProd cmpStr (cmpProd cmpPseudo
    (cmpProd cmpPseudo (cmpProd cmpStr cmpStr)))))

theorem cmpPseudo_lawful : LawfulCmp cmpPseudo :=
  cmpProd_lawful _ _ cmpInt_lawful (cmpList_lawful _ cmpStr_lawful)

theorem cmpVoterKey_lawful : LawfulCmp cmpVoterKey :=
  cmpProd_lawful _ _ cmpStr_lawful (cmpProd_lawful _ _ cmpStr_lawful
    (cmpProd_lawful _ _ cmpStr_lawful (cmpProd_lawful _ _ cmpPseudo_lawful
      (cmpProd_lawful _ _ cmpPseudo_lawful
        (cmpProd_lawful _ _ cmpStr_lawful cmpStr_lawful)))))

theorem ordering_then_eq (o : Ordering) : o.then .eq = o := by cases o <;> rfl

theorem pyCompareList_cons (x y : PyVal) (xs ys : List PyVal) (o o2 : Ordering)
    (h1 : pyCompare x y = some o) (h2 : pyCompareList xs ys = some o2) :
    pyCompareList (x :: xs) (y :: ys) = some (o.then o2) := by
  cases o with
  | lt => rw [pyCompareList, h1]; rfl
  | eq => rw [pyCompareList, h1, h2]; rfl
  | gt => rw [pyCompareList, h1]; rfl

theorem pyCompareList_map_str (xs ys : List String) :
    pyCompareList (xs.map .str) (ys.map .str) = some (cmpList cmpStr xs ys) := by
  induction xs generalizing ys with
  | nil => cases ys <;> rfl
  | cons x xt ih =>
    cases ys with
    | nil => rfl
    | cons y yt =>
      have h1 : pyCompare (.str x) (.str y) = some (cmpStr x y) := rfl
      simp only [List.map_cons, cmpList]
      exact pyCompareList_cons _ _ _ _ _ _ h1 (ih yt)

theorem pyCompare_pseudo (p q : Pseudo) :
    pyCompare (pseudoToPy p) (pseudoToPy q) = some (cmpPseudo p q) := by
  obtain ⟨n, ss⟩ := p
  obtain ⟨m, ts⟩ := q
  show pyCompareList (.int n :: ss.map .str) (.int m :: ts.map .str) = _
  have h1 : pyCompare (.int n) (.int m) = some (cmpInt n m) := rfl
  exact pyCompareList_cons _ _ _ _ _ _ h1 (pyCompareList_map_str ss ts)

theorem pyCompare_voterKey (v1 v2 : Row) :
    pyCompare (voterKeyPy v1) (voterKeyPy v2) =
      some (cmpVoterKey (voter_sort_key v1) (voter_sort_key v2)) := by
  have hstr : ∀ a b : String, pyCompare (.str a) (.str b) = some (cmpStr a b) :=
    fun a b => rfl
  have t0 : pyCompareList [] [] = some .eq := rfl
  have t1 := pyCompareList_cons _ _ _ _ _ _ (hstr (v1 "vuid") (v2 "vuid")) t0
  rw [ordering_then_eq] at t1
  have t2 := pyCompareList_cons _ _ _ _ _ _ (hstr (v1 "edr_date") (v2 "edr_date")) t1
  have t3 := pyCompareList_cons _ _ _ _ _ _
    (pyCompare_pseudo (make_pseudonumber_sortable (v1 "address_unit"))
      (make_pseudonumber_sortable (v2 "address_unit"))) t2
  have t4 := pyCompareList_cons _ _ _ _ _ _
    (pyCompare_pseudo (make_pseudonumber_sortable (v1 "address_number"))
      (make_pseudonumber_sortable (v2 "address_number"))) t3
  have t5 := pyCompareList_cons _ _ _ _ _ _
    (hstr (v1 "address_street_prefix") (v2 "address_street_prefix")) t4
  have t6 := pyCompareList_cons _ _ _ _ _ _
    (hstr (v1 "address_street_suffix") (v2 "address_street_suffix")) t5
  have t7 := pyCompareList_cons _ _ _ _ _ _
    (hstr (v1 "address_street_name") (v2 "address_street_name")) t6
  show pyCompareList _ _ = _
  rw [t7]
  rfl

/-- Boolean key order driving the final sort. -/
def voterLeB (a b : Row) : Bool :=
  cmpLeB cmpVoterKey (voter_sort_key a) (voter_sort_key b)

/-- Embedding of `voters.sort(key=voter_sort_key)` (vrlist.py line 562):
Python `list.sort` is a stable sort by ascending key, modelled by a stable
merge sort. -/
def sortVoters (voters : List Row) : List Row := voters.mergeSort voterLeB

theorem voterLeB_trans (a b c : Row) (h1 : voterLeB a b = true)
    (h2 : voterLeB b c = true) : voterLeB a c = true :=
  cmpLeB_trans cmpVoterKey cmpVoterKey_lawful _ _ _ h1 h2

theorem voterLeB_total (a b : Row) : (voterLeB a b || voterLeB b a) = true :=
  cmpLeB_total cmpVoterKey cmpVoterKey_lawful _ _

/-- C8: the final roster is sorted by the seven-component key of street
name, street suffix, street prefix, pseudonumeric address number,
pseudonumeric address unit, registration date and voter id; Python key
comparison is defined (never a `TypeError`) on every pair of rows and is a
total order on keys; and the sort — a stable merge sort, as Python
`list.sort` — permutes the rows into ascending key order, deterministically
(idempotently) and stably (sorted sublists survive). -/
theorem voter_sort_spec :
    (∀ v1 v2 : Row, pyCompare (voterKeyPy v1) (voterKeyPy v2) =
      some (cmpVoterKey (voter_sort_key v1) (voter_sort_key v2))) ∧
    LawfulCmp cmpVoterKey ∧
    (∀ voters : List Row, (sortVoters voters).Perm voters) ∧
    (∀ voters : List Row, (sortVoters voters).Pairwise fun a b => voterLeB a b = true) ∧
    (∀ voters : List Row, sortVoters (sortVoters voters) = sortVoters voters) ∧
    (∀ voters sub : List Row, sub.Sublist voters →
      (sub.Pairwise fun a b => voterLeB a b = true) → sub.Sublist (sortVoters voters)) := by
  have hsorted : ∀ voters : List Row,
      (sortVoters voters).Pairwise fun a b => voterLeB a b = true :=
    fun voters => List.sorted_mergeSort voterLeB_trans voterLeB_total voters
  refine ⟨pyCompare_voterKey, cmpVoterKey_lawful, fun voters => List.mergeSort_perm _ _,
    hsorted, fun voters => List.mergeSort_of_sorted (hsorted voters),
    fun voters sub hsub hps => List.sublist_mergeSort voterLeB_trans voterLeB_total hps hsub⟩

/-- Witness: the key comparator reports equality on a concrete row against
itself, so by lawfulness the keys agree. -/
theorem voter_sort_spec_witness :
    cmpVoterKey (voter_sort_key (voterRow "12")) (voter_sort_key (voterRow "12")) =
      Ordering.eq :=
  (voter_sort_spec.2.1.1 _ _).mpr rfl

/-! ### The distinct street list handed to selection -/

/-- Sort key used by main at vrlist.py line 541: the street name, two
spaces, the type suffix, two spaces, the direction prefix, concatenated
into one string. -/
def streetSortStr (street : StreetKey) : String :=
  street.2.1 ++ "  " ++ street.2.2 ++ "  " ++ street.1

/-- Boolean order on streets by the concatenated key of main. -/
def streetLeB (a b : StreetKey) : Bool :=
  cmpLeB cmpStr (streetSortStr a) (streetSortStr b)

/-- The candidate street list handed to `select_streets` by main
(vrlist.py lines 540 to 542): the distinct streets sorted (stably) by the
concatenated string key. -/
def sortStreets (streets : List StreetKey) : List StreetKey :=
  streets.mergeSort streetLeB

/-- The order the specification asserts: lexicographic on the tuple of
name, then suffix, then prefix. -/
def streetTupleLeB (a b : StreetKey) : Bool :=
  cmpLeB (cmpProd cmpStr (cmpProd cmpStr cmpStr))
    (a.2.1, a.2.2, a.1) (b.2.1, b.2.2, b.1)

/-- Sorting by the tuple key the specification claims, for comparison. -/
def sortStreetsByTuple (streets : List StreetKey) : List StreetKey :=
  streets.mergeSort streetTupleLeB

theorem mergeSort_pair (le : α → α → Bool) (a b : α) :
    [a, b].mergeSort le = if le a b then [a, b] else [b, a] := by
  simp [List.mergeSort, List.merge]

/-- C9 counterexample: for the streets (no prefix, name `"A"`, suffix
`"Z"`) and (no prefix, name `"A "` with a trailing space, suffix `"A"`),
the concatenated string key used by main orders them opposite to the
(name, suffix, prefix) tuple key, so the candidate list handed to
selection is NOT the tuple-sorted list. -/
theorem sortStreets_ne_tuple :
    sortStreets [("", "A", "Z"), ("", "A ", "A")] =
        [("", "A ", "A"), ("", "A", "Z")] ∧
      sortStreetsByTuple [("", "A", "Z"), ("", "A ", "A")] =
        [("", "A", "Z"), ("", "A ", "A")] ∧
      sortStreets [("", "A", "Z"), ("", "A ", "A")] ≠
        sortStreetsByTuple [("", "A", "Z"), ("", "A ", "A")] := by
  have h1 : streetLeB ("", "A", "Z") ("", "A ", "A") = false := by decide
  have h2 : streetTupleLeB ("", "A", "Z") ("", "A ", "A") = true := by decide
  refine ⟨?_, ?_, ?_⟩
  · rw [sortStreets, mergeSort_pair, h1]; rfl
  · rw [sortStreetsByTuple, mergeSort_pair, h2]; rfl
  · rw [sortStreets, sortStreetsByTuple, mergeSort_pair, mergeSort_pair, h1, h2]
    decide

theorem streetLeB_trans (a b c : StreetKey) (h1 : streetLeB a b = true)
    (h2 : streetLeB b c = true) : streetLeB a c = true :=
  cmpLeB_trans cmpStr cmpStr_lawful _ _ _ h1 h2

theorem streetLeB_total (a b : StreetKey) : (streetLeB a b || streetLeB b a) = true :=
  cmpLeB_total cmpStr cmpStr_lawful _ _

/-- C9 (amended): the candidate list handed to selection is the distinct
street list stably sorted into ascending order of the concatenated string
key name, two spaces, suffix, two spaces, prefix — which agrees with the
(name, suffix, prefix) tuple order on typical data but not in general. -/
theorem sortStreets_spec :
    (∀ l : List StreetKey, (sortStreets l).Perm l) ∧
    (∀ l : List StreetKey, (sortStreets l).Pairwise fun a b => streetLeB a b = true) ∧
    (∀ l : List StreetKey, sortStreets (sortStreets l) = sortStreets l) ∧
    (∀ l sub : List StreetKey, sub.Sublist l →
      (sub.Pairwise fun a b => streetLeB a b = true) → sub.Sublist (sortStreets l)) := by
  have hsorted : ∀ l : List StreetKey,
      (sortStreets l).Pairwise fun a b => streetLeB a b = true :=
    fun l => List.sorted_mergeSort streetLeB_trans streetLeB_total l
  exact ⟨fun l => List.mergeSort_perm _ _, hsorted,
    fun l => List.mergeSort_of_sorted (hsorted l),
    fun l sub hsub hps => List.sublist_mergeSort streetLeB_trans streetLeB_total hps hsub⟩

/-- Witness: a sorted one-street sublist survives the street sort. -/
theorem sortStreets_spec_witness :
    List.Sublist [(("", "A", "Z") : StreetKey)] (sortStreets [("", "A", "Z")]) :=
  sortStreets_spec.2.2.2 [("", "A", "Z")] [("", "A", "Z")] (by simp) (by simp)

end VRList
